import Mathlib

/-!
Verification of the sonosmqtt bridge against its design specification.

The Go source is shallowly embedded: Go maps become association lists
(key order is the only nondeterminism of Go map iteration, so theorems
quantify over the entry order), pointers to players become player ids
resolved through a store, byte slices become lists of naturals, and the
uint32 command-id counter becomes a natural number reduced mod 2^32.
Callbacks and timers are represented by identifiers; invoking a callback
or stopping a timer is recorded as an emitted action.
-/

set_option autoImplicit false

namespace SonosMqtt

/-! ## Association lists modelling Go maps -/

/-- Lookup in an association list, modelling Go map indexing. -/
def lookupA {α : Type} (l : List (String × α)) (k : String) : Option α :=
  match l with
  | [] => none
  | (k', v) :: rest => if k' = k then some v else lookupA rest k

/-- Insert or overwrite, modelling Go map assignment. -/
def insertA {α : Type} (l : List (String × α)) (k : String) (v : α) :
    List (String × α) :=
  match l with
  | [] => [(k, v)]
  | (k', v') :: rest =>
      if k' = k then (k, v) :: rest else (k', v') :: insertA rest k v

/-- Remove a key, modelling the Go builtin delete on a map. -/
def eraseA {α : Type} (l : List (String × α)) (k : String) : List (String × α) :=
  l.filter (fun e => e.1 ≠ k)

/-- Key set of an association list. -/
def keysA {α : Type} (l : List (String × α)) : List String :=
  l.map Prod.fst

/-- Insert a key into a key set, modelling Go map assignment where only
the key set matters (the stored value is a fixed reference or a bool). -/
def insertKey (l : List String) (k : String) : List String :=
  if k ∈ l then l else l ++ [k]

/-! ## Wire messages (sonos/messages.go)

A websocket response is parsed headers plus an unparsed JSON body; the
body is kept as raw bytes (List Nat).  Only the header fields the player
and router inspect are modelled. -/

/-- Response headers from sonos/messages.go (CommonHeaders plus the
response-only fields response, success and type). -/
structure ResponseHeaders where
  ns : String
  command : String
  userId : String
  householdId : String
  groupId : String
  playerId : String
  cmdId : String
  topic : String
  response : String
  success : Bool
  eventType : String
  deriving DecidableEq, Repr

/-- A parsed websocket response: headers plus raw body bytes. -/
structure WebsocketResponse where
  headers : ResponseHeaders
  bodyJSON : List Nat
  deriving DecidableEq, Repr

/-- Headers that are all empty strings, modelling the zero value of
sonos.CommonHeaders / sonos.ResponseHeaders. -/
def emptyHeaders : ResponseHeaders :=
  { ns := "", command := "", userId := "", householdId := "", groupId := ""
    playerId := "", cmdId := "", topic := "", response := "", success := false
    eventType := "" }

/-! ## Player and request multiplexer (player.go)

The playerImpl struct owns a websocket, an event handler, a uint32 cmdId
counter and a correlation table cmdCallbackMap from cmdId strings to
(callback, timer) pairs.  Callbacks and timers are modelled by a natural
identifier per entry; invoking a callback, stopping a timer, sending a
frame or forwarding an event are recorded as emitted actions. -/

/-- Observable effects of the player code: stopping an entry's timer,
invoking a stored callback with a response, forwarding an event to the
event handler, or writing a frame to the websocket. -/
inductive PAction where
  | timerStop (cmdId : String)
  | invoke (cb : Nat) (resp : WebsocketResponse)
  | event (resp : WebsocketResponse)
  | sendFrame
  deriving DecidableEq, Repr

/-- Mutable state of a playerImpl: whether the websocket and event
handler references are non-nil, the uint32 cmdId counter (kept as a
natural already reduced mod 2^32) and the correlation table. -/
structure PlayerSt where
  wsOpen : Bool
  hasHandler : Bool
  cmdId : Nat
  table : List (String × Nat)
  deriving DecidableEq, Repr

/-- NewInternalPlayerFromInfoResponse / NewInternalPlayerFromSonosPlayer
initialize websocket and eventHandler to nil, cmdId to 1 and the
correlation table to the empty map. -/
def playerInit : PlayerSt :=
  { wsOpen := false, hasHandler := false, cmdId := 1, table := [] }

/-- The synthetic failure response built in handleCmdTimeout. -/
def timeoutResponse : WebsocketResponse :=
  { headers := { emptyHeaders with
      response := "Command timed out", success := false, eventType := "none" }
    bodyJSON := [] }

/-- The synthetic failure response built in OnClose. -/
def closeResponse : WebsocketResponse :=
  { headers := { emptyHeaders with
      response := "The websocket has ceased to be.  It is a former websocket."
      success := false, eventType := "none" }
    bodyJSON := [] }

/-- SendRequestViaWebsocket.  The caller supplies the callback identity
(none models a nil callback) and whether marshalling the request and
writing it to the websocket succeed; both failure paths only log.
Returns the new state, whether a non-nil error was returned, the cmdId
string written into the request headers (none when the send was refused)
and the emitted actions. -/
def SendRequestViaWebsocket (st : PlayerSt) (cb : Option Nat)
    (marshalOk sendOk : Bool) : PlayerSt × Bool × Option String × List PAction :=
  if st.wsOpen = false then
    (st, true, none, [])
  else
    let issued := toString st.cmdId
    let table' := match cb with
      | some c => insertA st.table issued c
      | none => st.table
    let st' := { st with table := table', cmdId := (st.cmdId + 1) % 2 ^ 32 }
    if marshalOk = false then
      (st', false, some issued, [])
    else
      (st', false, some issued, [PAction.sendFrame])

/-- handleCmdTimeout after the timer fires: look up and delete the entry
under the lock, then invoke the callback (if the entry was still there)
with the timeout failure response. -/
def handleCmdTimeout (st : PlayerSt) (cmdId : String) : PlayerSt × List PAction :=
  match lookupA st.table cmdId with
  | some cb =>
      ({ st with table := eraseA st.table cmdId }, [PAction.invoke cb timeoutResponse])
  | none =>
      ({ st with table := eraseA st.table cmdId }, [])

/-- OnMessage for a frame that parsed successfully (a parse failure is
logged and dropped before this point).  A response carrying a cmdId that
matches a table entry stops the timer, removes the entry and invokes the
callback; a cmdId with no entry is dropped; everything else is forwarded
to the event handler when one is set. -/
def OnMessage (st : PlayerSt) (resp : WebsocketResponse) : PlayerSt × List PAction :=
  if resp.headers.cmdId ≠ "" then
    match lookupA st.table resp.headers.cmdId with
    | some cb =>
        ({ st with table := eraseA st.table resp.headers.cmdId },
         [PAction.timerStop resp.headers.cmdId, PAction.invoke cb resp])
    | none => (st, [])
  else
    (st, if st.hasHandler then [PAction.event resp] else [])

/-- OnClose: null the websocket and event handler, stop every timer in
the correlation table (which is left in place), then invoke every stored
callback with the close failure response outside the lock. -/
def OnClose (st : PlayerSt) : PlayerSt × List PAction :=
  ({ st with wsOpen := false, hasHandler := false },
   st.table.map (fun e => PAction.timerStop e.1) ++
     st.table.map (fun e => PAction.invoke e.2 closeResponse))

/-- CloseWebsocketConnection closes the websocket when one is open; the
websocket's close path then runs OnClose.  This models the combined
effect the spec calls closeTransport. -/
def closeTransport (st : PlayerSt) : PlayerSt × List PAction :=
  if st.wsOpen then OnClose st else (st, [])

/-- The player state after n SendRequestViaWebsocket calls on an open
websocket with no intervening close (each with a callback and a
successful send; the counter behaves identically on the other paths). -/
def stateAfterSends : Nat → PlayerSt
  | 0 => { playerInit with wsOpen := true, hasHandler := true }
  | n + 1 => (SendRequestViaWebsocket (stateAfterSends n) (some n) true true).1

/-- The cmdId string written into the headers of the k-th
SendRequestViaWebsocket call (1-indexed). -/
def issuedCmdId (k : Nat) : Option String :=
  (SendRequestViaWebsocket (stateAfterSends (k - 1)) (some (k - 1)) true true).2.2.1

/-! ## Event router and MQTT publishing (app.go)

A broker publish is a topic, a QoS, the retained flag and the payload
bytes.  The event router publishes through PublishEventToTopic, which
records the topic in a key-set cache; the deduplicating variant
PublishViaMQTT keeps the last payload per topic and skips byte-identical
repeats. -/

/-- One call to mqttClient.Publish. -/
structure Publish where
  topic : String
  qos : Nat
  retained : Bool
  payload : List Nat
  deriving DecidableEq, Repr

/-- The group data PublishEventToAllTopics consumes: the coordinator's
player id and the ids of the members of the group (the keys of the
Players map, so the order is arbitrary and the ids are distinct). -/
structure PubGroup where
  coordinatorId : String
  memberIds : List String
  deriving DecidableEq, Repr

/-- PublishEventToTopic: record the topic in the mqttCache key set and
publish the body at QoS 1 with the retained flag set. -/
def PublishEventToTopic (cache : List String) (topic : String) (body : List Nat) :
    List String × List Publish :=
  (insertKey cache topic, [⟨topic, 1, true, body⟩])

/-- One iteration of the fan-out loop in PublishEventToAllTopics:
publish the body to the player topic of member m, accumulating the
cache and the publishes. -/
def fanOutStep (baseTopic eventType : String) (body : List Nat)
    (acc : List String × List Publish) (m : String) : List String × List Publish :=
  let r := PublishEventToTopic acc.1 (baseTopic ++ "/player/" ++ m ++ "/" ++ eventType) body
  (r.1, acc.2 ++ r.2)

/-- PublishEventToAllTopics: an event with no groupId goes to the
household topic; an event with a groupId goes to the group topic and,
when fan-out is enabled, additionally to one player topic per member of
the group. -/
def PublishEventToAllTopics (baseTopic : String) (fanOut : Bool)
    (cache : List String) (group : PubGroup) (eventType groupId : String)
    (body : List Nat) : List String × List Publish :=
  if groupId = "" then
    PublishEventToTopic cache (baseTopic ++ "/" ++ eventType) body
  else
    let r₁ :=
      PublishEventToTopic cache
        (baseTopic ++ "/group/" ++ group.coordinatorId ++ "/" ++ eventType) body
    if fanOut then
      group.memberIds.foldl (fanOutStep baseTopic eventType body) r₁
    else
      r₁

/-- PublishViaMQTT (the deduplicating router in app.go): skip the
publish when the payload is byte-identical to the cached payload for the
topic, otherwise store the payload and publish at QoS 1 retained. -/
def PublishViaMQTT (cache : List (String × List Nat)) (topic : String)
    (body : List Nat) : List (String × List Nat) × List Publish :=
  match lookupA cache topic with
  | some last =>
      if body = last then (cache, [])
      else (insertA cache topic body, [⟨topic, 1, true, body⟩])
  | none => (insertA cache topic body, [⟨topic, 1, true, body⟩])

/-- A sequence of PublishViaMQTT calls, accumulating the broker
publishes they perform. -/
def runPublishes (cache : List (String × List Nat))
    (calls : List (String × List Nat)) : List (String × List Nat) × List Publish :=
  match calls with
  | [] => (cache, [])
  | (t, b) :: rest =>
      let (c₁, p₁) := PublishViaMQTT cache t b
      let (c₂, p₂) := runPublishes c₁ rest
      (c₂, p₁ ++ p₂)

/-- Go strings.HasPrefix, over the character sequences of the strings. -/
def goHasPfx (s pfx : String) : Bool :=
  pfx.data.isPrefixOf s.data

/-- RemoveStaleTopics: build the prefixes for the given missing player
and group ids, then clear (delete from the cache and publish an empty
non-retained payload to) every cached topic matching one of them.  The
mqttCache here is the key-set cache used with PublishEventToTopic. -/
def RemoveStaleTopics (baseTopic : String) (cache : List String)
    (players groups : List String) : List String × List Publish :=
  let pfxs :=
    players.map (fun p => baseTopic ++ "/v1/events/player/" ++ p) ++
      groups.map (fun g => baseTopic ++ "/v1/events/group/" ++ g)
  (cache.filter (fun topic => ¬ (pfxs.any (fun pfx => goHasPfx topic pfx))),
   (cache.filter (fun topic => pfxs.any (fun pfx => goHasPfx topic pfx))).map
     (fun topic => ⟨topic, 1, false, []⟩))

/-! ## Group model construction (groups.go: getGroupMap and friends)

sonos.GroupsResponse carries a flat list of players and a list of groups
naming a coordinator id and member player ids.  getGroupMap builds a map
of internal players keyed by id (the store), then walks the groups,
mutating the shared player objects through SetCoordinator and building a
map of groups keyed by coordinator player id.  Pointer sharing is
modelled by keeping player ids in the groups and resolving them through
the final store. -/

/-- Internal player fields relevant to the group model. -/
structure PlayerM where
  playerId : String
  name : String
  groupId : String
  coordinatorId : String
  householdId : String
  deriving DecidableEq, Repr

/-- groupIdToCoordinatorId: take the group id up to the last colon when
one occurs past position zero.  strings.LastIndex is modelled on the
character list (it agrees with the byte index on these ids). -/
def groupIdToCoordinatorId (groupId : String) : String :=
  let cs := groupId.data
  let last : Int :=
    if ':' ∈ cs then (cs.length : Int) - 1 - (cs.reverse.indexOf ':' : Int) else -1
  if last > 0 then ⟨cs.take last.toNat⟩ else groupId

/-- sonos.Player, the per-player record inside a GroupsResponse. -/
structure SPlayer where
  id : String
  name : String
  websocketUrl : String
  deriving DecidableEq, Repr

/-- sonos.Group inside a GroupsResponse. -/
structure SGroup where
  id : String
  name : String
  coordinatorId : String
  playerIds : List String
  deriving DecidableEq, Repr

/-- sonos.GroupsResponse. -/
structure SGroupsResponse where
  groups : List SGroup
  players : List SPlayer
  deriving DecidableEq, Repr

/-- NewInternalPlayerFromSonosPlayer with an empty group id, as called
from getGroupMap: groupId and coordinatorId start blank
(groupIdToCoordinatorId of the empty string is the empty string). -/
def NewInternalPlayerFromSonosPlayer (p : SPlayer) (hhid groupId : String) : PlayerM :=
  { playerId := p.id, name := p.name, groupId := groupId
    coordinatorId := groupIdToCoordinatorId groupId, householdId := hhid }

/-- The field update SetCoordinator performs: coordinatorId becomes the
coordinator's player id and groupId the group id. -/
def updFields (gid cid : String) (p : PlayerM) : PlayerM :=
  { p with groupId := gid, coordinatorId := cid }

/-- SetCoordinator on the player stored under id.  Mutation of the
shared object is modelled by updating the store entry in place. -/
def setCoordinatorInStore (store : List (String × PlayerM)) (id gid cid : String) :
    List (String × PlayerM) :=
  store.map (fun e => (e.1, if e.1 = id then updFields gid cid e.2 else e.2))

/-- A group as built by getGroupMap, with the players kept as ids to be
resolved through the (mutated) store. -/
structure GroupRef where
  coordinatorId : String
  memberIds : List String
  deriving DecidableEq, Repr

/-- One iteration of the member loop of getGroupMap: resolve the member
id in allPlayers and, when found, call SetCoordinator on it and add it
to the group's Players map. -/
def addMemberStep (g : SGroup) (acc : List (String × PlayerM) × List String)
    (pid : String) : List (String × PlayerM) × List String :=
  match lookupA acc.1 pid with
  | some _ => (setCoordinatorInStore acc.1 pid g.id g.coordinatorId,
               insertKey acc.2 pid)
  | none => acc

/-- The member loop of getGroupMap for one response group. -/
def addMembers (g : SGroup) (store : List (String × PlayerM)) :
    List (String × PlayerM) × List String :=
  g.playerIds.foldl (addMemberStep g) (store, [])

/-- The body of getGroupMap's loop over the response groups, threading
the player store and the allGroups map. -/
def processGroup (acc : List (String × PlayerM) × List (String × GroupRef))
    (g : SGroup) : List (String × PlayerM) × List (String × GroupRef) :=
  match lookupA acc.1 g.coordinatorId with
  | none => acc
  | some _ =>
      let store₁ := setCoordinatorInStore acc.1 g.coordinatorId g.id g.coordinatorId
      let r := addMembers g store₁
      (r.1, insertA acc.2 g.coordinatorId ⟨g.coordinatorId, r.2⟩)

/-- The player-stashing loop of getGroupMap: allPlayers[player.GetId()]
becomes an insert keyed by the id of the freshly built internal player. -/
def addPlayerStep (hhid : String) (s : List (String × PlayerM)) (p : SPlayer) :
    List (String × PlayerM) :=
  insertA s p.id (NewInternalPlayerFromSonosPlayer p hhid "")

/-- getGroupMap: build allPlayers from the flat player list, then process
the groups in order.  Returns the final store and the allGroups map. -/
def getGroupMap (hhid : String) (resp : SGroupsResponse) :
    List (String × PlayerM) × List (String × GroupRef) :=
  resp.groups.foldl processGroup (resp.players.foldl (addPlayerStep hhid) [], [])

/-- A fallback player used only to totalize store resolution; the proofs
establish that every resolved id is present in the store. -/
def defaultPlayerM : PlayerM :=
  { playerId := "", name := "", groupId := "", coordinatorId := "", householdId := "" }

/-- A fully resolved group: the coordinator player object and the
Players map, read through the final store as the Go pointers are. -/
structure GroupM where
  coordinator : PlayerM
  players : List (String × PlayerM)
  deriving DecidableEq, Repr

/-- Resolve a GroupRef through the final store. -/
def resolveGroup (store : List (String × PlayerM)) (gr : GroupRef) : GroupM :=
  { coordinator := (lookupA store gr.coordinatorId).getD defaultPlayerM
    players := gr.memberIds.map (fun m => (m, (lookupA store m).getD defaultPlayerM)) }

/-- The group model as observed by the rest of the program: the
allGroups map with every player reference resolved. -/
def groupModelOf (hhid : String) (resp : SGroupsResponse) : List (String × GroupM) :=
  let r := getGroupMap hhid resp
  r.2.map (fun e => (e.1, resolveGroup r.1 e.2))

/-! ## Group model equivalence (groups.go: groupsAreCloseEnoughForMe)

The check compares only the key structure: the two maps must have the
same number of groups, and each coordinator id of the first map must be
present in the second with the same number of players and every player
id of the first group present in the second. -/

/-- groupsAreCloseEnoughForMe over the resolved group model. -/
def groupsAreCloseEnoughForMe (a b : List (String × GroupM)) : Bool :=
  (a.length = b.length : Bool) &&
    a.all (fun e =>
      match lookupA b e.1 with
      | none => false
      | some g' =>
          (e.2.players.length = g'.players.length : Bool) &&
            e.2.players.all (fun p => (lookupA g'.players p.1).isSome))

/-- The groups branch of handleResponse stages a reconnect exactly when
the freshly parsed model is not close enough to the current one. -/
def triggersReconnect (current incoming : List (String × GroupM)) : Bool :=
  ! groupsAreCloseEnoughForMe current incoming

/-! ## Payload simplification (simplify.go)

simplifySonosType looks the event type up in the simplfiers registry
and, when the registered simplifier succeeds, replaces the body and
appends Simple to the type.  simplifyPlaybackExtended reshapes a parsed
extendedPlaybackStatus body; the JSON round-trips are handled outside
this model, so the simplifier acts on the parsed structure. -/

/-- One hex digit, as in Go net/url's unhex. -/
def unhexDigit (c : Char) : Option Nat :=
  if '0' ≤ c ∧ c ≤ '9' then some (c.toNat - '0'.toNat)
  else if 'a' ≤ c ∧ c ≤ 'f' then some (c.toNat - 'a'.toNat + 10)
  else if 'A' ≤ c ∧ c ≤ 'F' then some (c.toNat - 'A'.toNat + 10)
  else none

/-- Go net/url unescape in query mode over a character sequence: percent
escapes decode to the escaped byte, plus decodes to a space, anything
else passes through; a malformed escape is an error. -/
def queryUnescapeList : List Char → Option (List Char)
  | [] => some []
  | '%' :: a :: b :: rest =>
      match unhexDigit a, unhexDigit b with
      | some x, some y => (queryUnescapeList rest).map (Char.ofNat (x * 16 + y) :: ·)
      | _, _ => none
  | '%' :: _ => none
  | '+' :: rest => (queryUnescapeList rest).map (' ' :: ·)
  | c :: rest => (queryUnescapeList rest).map (c :: ·)

/-- url.QueryUnescape as used in simplifyPlaybackExtended: the error is
discarded and the empty string Go returns on error is kept. -/
def goQueryUnescape (s : String) : String :=
  match queryUnescapeList s.data with
  | some l => ⟨l⟩
  | none => ""

/-- The track fields of sonos.ExtendedPlaybackStatus the simplifier
reads (names of nested album, artist and service records inlined). -/
structure TrackM where
  trackType : String
  name : String
  imageUrl : String
  albumName : String
  artistName : String
  serviceName : String
  deriving DecidableEq, Repr

/-- The parsed extendedPlaybackStatus body fields the simplifier reads. -/
structure ExtendedPlaybackStatus where
  playbackState : String
  track : TrackM
  deriving DecidableEq, Repr

/-- The simplified body produced for extendedPlaybackStatus events. -/
structure SimpleExtendedPlaybackStatus where
  playbackState : String
  artist : String
  album : String
  track : String
  service : String
  imageUrl : String
  deriving DecidableEq, Repr

/-- simplifyPlaybackExtended on a parsed body: fold buffering into
playing, decode the image url twice, copy the track fields. -/
def simplifyPlaybackExtended (m : ExtendedPlaybackStatus) :
    SimpleExtendedPlaybackStatus :=
  let playbackState :=
    if m.playbackState = "PLAYBACK_STATE_BUFFERING" then "PLAYBACK_STATE_PLAYING"
    else m.playbackState
  let imageUrl := goQueryUnescape (goQueryUnescape m.track.imageUrl)
  { playbackState := playbackState
    artist := m.track.artistName
    album := m.track.albumName
    track := m.track.name
    service := m.track.serviceName
    imageUrl := imageUrl }

/-- The keys of the simplfiers registry in simplify.go. -/
def simplfiersKeys : List String := ["extendedPlaybackStatus", "groups"]

/-- The type renaming performed by simplifySonosType when a registered
simplifier succeeds: append Simple to the event type. -/
def simplifiedTypeName (eventType : String) : String :=
  if simplfiersKeys.contains eventType then eventType ++ "Simple" else eventType

/-! ## Helper lemmas -/

theorem lookupA_insertA {α : Type} (l : List (String × α)) (k k' : String) (v : α) :
    lookupA (insertA l k v) k' = if k = k' then some v else lookupA l k' := by
  induction l with
  | nil => simp [insertA, lookupA]
  | cons e rest ih =>
    obtain ⟨k₀, v₀⟩ := e
    by_cases h₀ : k₀ = k
    · subst h₀
      by_cases h₁ : k₀ = k'
      · subst h₁; simp [insertA, lookupA]
      · simp [insertA, lookupA, h₁, fun h => h₁ (Eq.symm h)]
    · by_cases h₁ : k₀ = k'
      · subst h₁
        have hne : ¬ k = k₀ := fun h => h₀ (Eq.symm h)
        simp [insertA, lookupA, h₀, hne]
      · simp [insertA, lookupA, h₀, h₁, ih]

theorem keysA_insertA {α : Type} (l : List (String × α)) (k k' : String) (v : α) :
    k' ∈ keysA (insertA l k v) ↔ k' = k ∨ k' ∈ keysA l := by
  induction l with
  | nil => simp [insertA, keysA]
  | cons e rest ih =>
    obtain ⟨k₀, v₀⟩ := e
    by_cases h₀ : k₀ = k
    · subst h₀
      simp [insertA, keysA]
    · simp only [insertA, if_neg h₀, keysA, List.map_cons, List.mem_cons]
      have := ih
      simp only [keysA] at this
      rw [this]
      tauto

theorem keysA_nodup_insertA {α : Type} (l : List (String × α)) (k : String) (v : α)
    (h : (keysA l).Nodup) : (keysA (insertA l k v)).Nodup := by
  induction l with
  | nil => simp [insertA, keysA]
  | cons e rest ih =>
    obtain ⟨k₀, v₀⟩ := e
    simp only [keysA, List.map_cons, List.nodup_cons] at h
    by_cases h₀ : k₀ = k
    · subst h₀
      simpa [insertA, keysA, List.nodup_cons] using h
    · simp only [insertA, if_neg h₀, keysA, List.map_cons, List.nodup_cons]
      refine ⟨?_, ih h.2⟩
      intro hmem
      rcases (keysA_insertA rest k k₀ v).mp hmem with h' | h'
      · exact h₀ h'
      · exact h.1 h'

theorem lookupA_eq_none_of_not_mem_keysA {α : Type} (l : List (String × α))
    (k : String) (h : k ∉ keysA l) : lookupA l k = none := by
  induction l with
  | nil => rfl
  | cons e rest ih =>
    obtain ⟨k₀, v₀⟩ := e
    simp only [keysA, List.map_cons, List.mem_cons] at h
    push_neg at h
    have hne : ¬ k₀ = k := fun hh => h.1 (Eq.symm hh)
    simp [lookupA, hne, ih h.2]

theorem lookupA_isSome_iff_mem_keysA {α : Type} (l : List (String × α)) (k : String) :
    (lookupA l k).isSome ↔ k ∈ keysA l := by
  induction l with
  | nil => simp [lookupA, keysA]
  | cons e rest ih =>
    obtain ⟨k₀, v₀⟩ := e
    by_cases h₀ : k₀ = k
    · subst h₀; simp [lookupA, keysA]
    · have hne : ¬ k = k₀ := fun h => h₀ (Eq.symm h)
      simp [lookupA, keysA, h₀, ih, hne]

theorem mem_of_lookupA_eq_some {α : Type} (l : List (String × α)) (k : String)
    (v : α) (h : lookupA l k = some v) : (k, v) ∈ l := by
  induction l with
  | nil => simp [lookupA] at h
  | cons e rest ih =>
    obtain ⟨k₀, v₀⟩ := e
    by_cases h₀ : k₀ = k
    · subst h₀
      simp [lookupA] at h
      subst h; exact List.mem_cons_self _ _
    · simp only [lookupA, if_neg h₀] at h
      exact List.mem_cons_of_mem _ (ih h)

theorem lookupA_eq_some_of_mem_nodup {α : Type} (l : List (String × α))
    (k : String) (v : α) (hn : (keysA l).Nodup) (h : (k, v) ∈ l) :
    lookupA l k = some v := by
  induction l with
  | nil => simp at h
  | cons e rest ih =>
    obtain ⟨k₀, v₀⟩ := e
    simp only [keysA, List.map_cons, List.nodup_cons] at hn
    rcases List.mem_cons.mp h with h' | h'
    · rw [Prod.mk.injEq] at h'
      obtain ⟨h₁, h₂⟩ := h'
      subst h₁; subst h₂
      simp [lookupA]
    · have hk : k₀ ≠ k := by
        intro hh; subst hh
        exact hn.1 (List.mem_map.mpr ⟨(k₀, v), h', rfl⟩)
      simp [lookupA, hk, ih hn.2 h']


theorem lookupA_eraseA_self {α : Type} (l : List (String × α)) (k : String) :
    lookupA (eraseA l k) k = none := by
  induction l with
  | nil => rfl
  | cons e rest ih =>
    obtain ⟨k₀, v₀⟩ := e
    by_cases h₀ : k₀ = k
    · subst h₀; simpa [eraseA, List.filter] using ih
    · simpa [eraseA, List.filter, h₀, lookupA] using ih

theorem count_invoke_map {r : WebsocketResponse} (table : List (String × Nat))
    (hn : (table.map Prod.snd).Nodup) (e : String × Nat) (he : e ∈ table) :
    (table.map (fun e' => PAction.invoke e'.2 r)).count (PAction.invoke e.2 r) = 1 := by
  induction table with
  | nil => simp at he
  | cons x rest ih =>
    simp only [List.map_cons, List.nodup_cons] at hn
    rcases List.mem_cons.mp he with h | h
    · subst h
      simp only [List.map_cons, List.count_cons_self]
      have hz : (rest.map (fun e' => PAction.invoke e'.2 r)).count (PAction.invoke e.2 r) = 0 := by
        rw [List.count_eq_zero]
        intro hmem
        rcases List.mem_map.mp hmem with ⟨e', he', heq⟩
        have h2 : e'.2 = e.2 := by
          injection heq with h2 h3
        exact hn.1 (h2 ▸ List.mem_map.mpr ⟨e', he', rfl⟩)
      omega
    · have hne : PAction.invoke e.2 r ≠ PAction.invoke x.2 r := by
        intro hcontra
        have h2 : e.2 = x.2 := by injection hcontra with h2 h3
        exact hn.1 (h2 ▸ List.mem_map.mpr ⟨e, h, rfl⟩)
      simp only [List.map_cons]
      rw [List.count_cons_of_ne hne]
      exact ih hn.2 h

/-! ## Claim theorems -/

/-- C3: when a pending request's timer fires, the entry for its cmdId is
removed from the correlation table and the stored callback is invoked
with the failure response success=false, response="Command timed out",
type="none"; a reply carrying a cmdId with no table entry invokes no
callback and is not forwarded to the event sink. -/
theorem timeout_fires_and_late_reply_dropped :
    (∀ (st : PlayerSt) (k : String) (cb : Nat),
        lookupA st.table k = some cb →
        handleCmdTimeout st k =
          ({ st with table := eraseA st.table k },
           [PAction.invoke cb timeoutResponse]) ∧
        lookupA (handleCmdTimeout st k).1.table k = none ∧
        timeoutResponse.headers.success = false ∧
        timeoutResponse.headers.response = "Command timed out" ∧
        timeoutResponse.headers.eventType = "none") ∧
    (∀ (st : PlayerSt) (resp : WebsocketResponse),
        resp.headers.cmdId ≠ "" →
        lookupA st.table resp.headers.cmdId = none →
        OnMessage st resp = (st, [])) := by
  constructor
  · intro st k cb h
    refine ⟨by simp [handleCmdTimeout, h], ?_, rfl, rfl, rfl⟩
    simp [handleCmdTimeout, h, lookupA_eraseA_self]
  · intro st resp hne hnone
    simp [OnMessage, hne, hnone]

/-- C3 witness: a concrete pending entry times out and is removed, and a
reply for an unknown cmdId is dropped. -/
theorem timeout_fires_witness :
    (lookupA ([("1", 0)] : List (String × Nat)) "1" = some 0 ∧
      handleCmdTimeout { wsOpen := true, hasHandler := true, cmdId := 2, table := [("1", 0)] } "1" =
        ({ wsOpen := true, hasHandler := true, cmdId := 2, table := [] },
         [PAction.invoke 0 timeoutResponse])) ∧
    ({ emptyHeaders with cmdId := "7" }.cmdId ≠ "" ∧
      OnMessage { wsOpen := true, hasHandler := true, cmdId := 2, table := [] }
          { headers := { emptyHeaders with cmdId := "7" }, bodyJSON := [] } =
        ({ wsOpen := true, hasHandler := true, cmdId := 2, table := [] }, [])) := by
  constructor
  · refine ⟨by decide, ?_⟩
    have h := timeout_fires_and_late_reply_dropped.1
      { wsOpen := true, hasHandler := true, cmdId := 2, table := [("1", 0)] } "1" 0 (by decide)
    have := h.1
    rw [this]
    decide
  · refine ⟨by decide, ?_⟩
    exact timeout_fires_and_late_reply_dropped.2
      { wsOpen := true, hasHandler := true, cmdId := 2, table := [] }
      { headers := { emptyHeaders with cmdId := "7" }, bodyJSON := [] }
      (by decide) (by decide)

/-- C10: SendRequestViaWebsocket returns a non-nil error exactly when no
websocket is open (leaving the state untouched); with an open websocket
it returns nil even when marshalling or the websocket write fails, and
when a callback was supplied the correlation entry is recorded (and
stays recorded) regardless of those failures. -/
theorem sendRequest_error_iff_no_websocket :
    (∀ (st : PlayerSt) (cb : Option Nat) (mOk sOk : Bool),
        st.wsOpen = false →
        SendRequestViaWebsocket st cb mOk sOk = (st, true, none, [])) ∧
    (∀ (st : PlayerSt) (cb : Option Nat) (mOk sOk : Bool),
        st.wsOpen = true →
        (SendRequestViaWebsocket st cb mOk sOk).2.1 = false ∧
        ∀ c, cb = some c →
          (SendRequestViaWebsocket st cb mOk sOk).1.table =
            insertA st.table (toString st.cmdId) c ∧
          lookupA (SendRequestViaWebsocket st cb mOk sOk).1.table (toString st.cmdId) =
            some c) := by
  constructor
  · intro st cb mOk sOk h
    simp [SendRequestViaWebsocket, h]
  · intro st cb mOk sOk h
    constructor
    · cases mOk <;> simp [SendRequestViaWebsocket, h]
    · intro c hc
      subst hc
      cases mOk <;>
        simp [SendRequestViaWebsocket, h, lookupA_insertA]

/-- C10 witness: with no websocket a concrete call errors without state
change; with a websocket open and both the marshal and the write
failing, the call returns nil and the entry is recorded. -/
theorem sendRequest_error_witness :
    ((playerInit.wsOpen = false) ∧
      SendRequestViaWebsocket playerInit (some 5) true true = (playerInit, true, none, [])) ∧
    (({ playerInit with wsOpen := true }.wsOpen = true) ∧
      (SendRequestViaWebsocket { playerInit with wsOpen := true } (some 5) false false).2.1 = false ∧
      (SendRequestViaWebsocket { playerInit with wsOpen := true } (some 5) false false).1.table =
        [("1", 5)]) := by
  refine ⟨⟨rfl, ?_⟩, ⟨rfl, ?_, ?_⟩⟩
  · exact sendRequest_error_iff_no_websocket.1 playerInit (some 5) true true rfl
  · exact (sendRequest_error_iff_no_websocket.2 { playerInit with wsOpen := true }
      (some 5) false false rfl).1
  · have h := ((sendRequest_error_iff_no_websocket.2 { playerInit with wsOpen := true }
      (some 5) false false rfl).2 5 rfl).1
    rw [h]
    decide

/-- C2 counterexample: with one pending request, after closeTransport
the correlation table still holds its entry (OnClose never drains the
map), and no callback is invoked with the response text the claim
states; the actual text is the websocket obituary. -/
theorem closeTransport_claim_false :
    (closeTransport ⟨true, true, 2, [("1", 0)]⟩).1.table ≠ [] ∧
    ((closeTransport ⟨true, true, 2, [("1", 0)]⟩).2.all (fun a =>
        match a with
        | PAction.invoke _ r => r.headers.response ≠ "The connection has ceased to be."
        | _ => true)) = true ∧
    closeResponse.headers.response =
      "The websocket has ceased to be.  It is a former websocket." := by
  refine ⟨by decide, by decide, rfl⟩

/-- C2 (amended): after closeTransport on an open transport, the
websocket and event handler are nulled, every pending entry's timer is
stopped, and every previously pending callback is invoked exactly once
(given the distinct callback identities of distinct requests) with a
failure response whose success is false, whose response text is "The
websocket has ceased to be.  It is a former websocket." and whose type
is "none"; the correlation table itself is left in place, still holding
its entries. -/
theorem closeTransport_drains_callbacks (st : PlayerSt) (hopen : st.wsOpen = true) :
    (closeTransport st).1.wsOpen = false ∧
    (closeTransport st).1.hasHandler = false ∧
    (closeTransport st).1.table = st.table ∧
    (closeTransport st).2 =
      st.table.map (fun e => PAction.timerStop e.1) ++
        st.table.map (fun e => PAction.invoke e.2 closeResponse) ∧
    closeResponse.headers.success = false ∧
    closeResponse.headers.response =
      "The websocket has ceased to be.  It is a former websocket." ∧
    closeResponse.headers.eventType = "none" ∧
    (∀ e ∈ st.table, PAction.timerStop e.1 ∈ (closeTransport st).2) ∧
    ((st.table.map Prod.snd).Nodup →
      ∀ e ∈ st.table,
        (closeTransport st).2.count (PAction.invoke e.2 closeResponse) = 1) := by
  have hct : closeTransport st = OnClose st := by
    simp [closeTransport, hopen]
  rw [hct]
  refine ⟨rfl, rfl, rfl, rfl, rfl, rfl, rfl, ?_, ?_⟩
  · intro e he
    exact List.mem_append_left _ (List.mem_map.mpr ⟨e, he, rfl⟩)
  · intro hn e he
    have hstops : (st.table.map (fun e' => PAction.timerStop e'.1)).count
        (PAction.invoke e.2 closeResponse) = 0 := by
      rw [List.count_eq_zero]
      intro hmem
      rcases List.mem_map.mp hmem with ⟨e', _, heq⟩
      exact PAction.noConfusion heq
    rw [show (OnClose st).2 = st.table.map (fun e' => PAction.timerStop e'.1) ++
        st.table.map (fun e' => PAction.invoke e'.2 closeResponse) from rfl]
    rw [List.count_append, hstops, count_invoke_map st.table hn e he]

/-- C2 witness: a concrete player with two pending requests; both
callbacks get the close failure exactly once, both timers are stopped,
and the table keeps its two entries. -/
theorem closeTransport_drains_witness :
    ((⟨true, true, 3, [("1", 0), ("2", 1)]⟩ : PlayerSt).wsOpen = true) ∧
    (closeTransport ⟨true, true, 3, [("1", 0), ("2", 1)]⟩).1.table = [("1", 0), ("2", 1)] ∧
    (closeTransport ⟨true, true, 3, [("1", 0), ("2", 1)]⟩).2.count
      (PAction.invoke 0 closeResponse) = 1 ∧
    (closeTransport ⟨true, true, 3, [("1", 0), ("2", 1)]⟩).2.count
      (PAction.invoke 1 closeResponse) = 1 := by
  have h := closeTransport_drains_callbacks ⟨true, true, 3, [("1", 0), ("2", 1)]⟩ rfl
  refine ⟨rfl, h.2.2.1, ?_, ?_⟩
  · exact h.2.2.2.2.2.2.2.2 (by decide) ("1", 0) (by decide)
  · exact h.2.2.2.2.2.2.2.2 (by decide) ("2", 1) (by decide)

/-! Closed form of the cmdId counter. -/

theorem stateAfterSends_wsOpen (n : Nat) : (stateAfterSends n).wsOpen = true := by
  induction n with
  | zero => rfl
  | succ n ih =>
    simp only [stateAfterSends, SendRequestViaWebsocket, ih]
    simp

theorem stateAfterSends_cmdId (n : Nat) :
    (stateAfterSends n).cmdId = (1 + n) % 2 ^ 32 := by
  induction n with
  | zero => rfl
  | succ n ih =>
    have hopen := stateAfterSends_wsOpen n
    simp only [stateAfterSends, SendRequestViaWebsocket, hopen]
    simp only [Bool.true_eq_false, if_false, ih]
    rw [Nat.mod_add_mod]
    omega

theorem issuedCmdId_eq (k : Nat) :
    issuedCmdId k = some (toString ((1 + (k - 1)) % 2 ^ 32)) := by
  have hopen := stateAfterSends_wsOpen (k - 1)
  have hcmd := stateAfterSends_cmdId (k - 1)
  simp only [issuedCmdId, SendRequestViaWebsocket, hopen]
  simp [hcmd]

/-- C5 counterexample: the cmdId counter is a uint32, so at the
4294967296-th SendRequestViaWebsocket call the issued cmdId wraps to
"0" instead of being the string form of the next integer, and the
underlying counter value drops below the one issued one call earlier. -/
theorem cmdId_wraps_at_2_pow_32 :
    issuedCmdId 4294967296 = some "0" ∧
    issuedCmdId 4294967295 = some "4294967295" ∧
    ("0" : String) ≠ "4294967296" ∧
    ((1 + (4294967296 - 1)) % 2 ^ 32 : Nat) < (1 + (4294967295 - 1)) % 2 ^ 32 := by
  refine ⟨?_, ?_, by decide, by norm_num⟩
  · rw [issuedCmdId_eq 4294967296]
    norm_num
    rfl
  · rw [issuedCmdId_eq 4294967295]
    norm_num
    rfl

/-- C5 (amended): as long as the per-player uint32 counter has not
wrapped (fewer than 2^32 requests), the cmdId values written into the
request headers are the string forms of a strictly increasing counter
starting at 1: the k-th request gets the string of k. -/
theorem cmdId_strictly_increasing (k : Nat) (hk : 0 < k) (hlt : k < 2 ^ 32) :
    issuedCmdId k = some (toString k) ∧
    (∀ j, 0 < j → j < k → (1 + (j - 1)) % 2 ^ 32 < (1 + (k - 1)) % 2 ^ 32) := by
  have hkeq : (1 + (k - 1)) % 2 ^ 32 = k := by
    have h1 : 1 + (k - 1) = k := by omega
    rw [h1, Nat.mod_eq_of_lt hlt]
  constructor
  · rw [issuedCmdId_eq k, hkeq]
  · intro j hj hjk
    have hjeq : (1 + (j - 1)) % 2 ^ 32 = j := by
      have h1 : 1 + (j - 1) = j := by omega
      rw [h1, Nat.mod_eq_of_lt (by omega)]
    rw [hjeq, hkeq]
    exact hjk

/-! The fan-out loop appends exactly one publish per member. -/

theorem fanOutStep_foldl (baseTopic eventType : String) (body : List Nat)
    (ms : List String) :
    ∀ (st : List String × List Publish),
      (ms.foldl (fanOutStep baseTopic eventType body) st).2 =
        st.2 ++ ms.map (fun m =>
          ⟨baseTopic ++ "/player/" ++ m ++ "/" ++ eventType, 1, true, body⟩) := by
  induction ms with
  | nil => intro st; simp
  | cons m rest ih =>
    intro st
    simp only [List.foldl_cons, List.map_cons]
    rw [ih]
    simp [fanOutStep, PublishEventToTopic]

/-- C1: for an inbound event whose headers carry a non-empty groupId,
with fan-out enabled the router publishes the event body once per member
of the resolved group to the player topic of that member (all publishes
carrying the same body, at QoS 1 with the retained flag), in addition to
the group-topic publish. -/
theorem fanout_publishes_per_member (baseTopic : String) (cache : List String)
    (group : PubGroup) (eventType groupId : String) (body : List Nat)
    (hgid : groupId ≠ "") :
    (PublishEventToAllTopics baseTopic true cache group eventType groupId body).2 =
      (⟨baseTopic ++ "/group/" ++ group.coordinatorId ++ "/" ++ eventType, 1, true, body⟩ : Publish) ::
        group.memberIds.map (fun m =>
          ⟨baseTopic ++ "/player/" ++ m ++ "/" ++ eventType, 1, true, body⟩) ∧
    ∀ m ∈ group.memberIds,
      (⟨baseTopic ++ "/player/" ++ m ++ "/" ++ eventType, 1, true, body⟩ : Publish) ∈
        (PublishEventToAllTopics baseTopic true cache group eventType groupId body).2 := by
  have hmain :
      (PublishEventToAllTopics baseTopic true cache group eventType groupId body).2 =
        (⟨baseTopic ++ "/group/" ++ group.coordinatorId ++ "/" ++ eventType, 1, true, body⟩ : Publish) ::
          group.memberIds.map (fun m =>
            ⟨baseTopic ++ "/player/" ++ m ++ "/" ++ eventType, 1, true, body⟩) := by
    simp only [PublishEventToAllTopics, if_neg hgid, if_true]
    rw [fanOutStep_foldl]
    simp [PublishEventToTopic]
  refine ⟨hmain, ?_⟩
  intro m hm
  rw [hmain]
  exact List.mem_cons_of_mem _ (List.mem_map.mpr ⟨m, hm, rfl⟩)

/-- C1 witness: a two-member group with fan-out produces one publish per
member with the same body (plus the group-topic publish). -/
theorem fanout_publishes_witness :
    (("G1:1" : String) ≠ "") ∧
    (PublishEventToAllTopics "base" true [] ⟨"P1", ["P1", "P2"]⟩ "extendedPlaybackStatus"
        "G1:1" [7, 8]).2 =
      [⟨"base/group/P1/extendedPlaybackStatus", 1, true, [7, 8]⟩,
       ⟨"base/player/P1/extendedPlaybackStatus", 1, true, [7, 8]⟩,
       ⟨"base/player/P2/extendedPlaybackStatus", 1, true, [7, 8]⟩] := by
  refine ⟨by decide, ?_⟩
  have h := (fanout_publishes_per_member "base" [] ⟨"P1", ["P1", "P2"]⟩
    "extendedPlaybackStatus" "G1:1" [7, 8] (by decide)).1
  rw [h]
  rfl

/-- C5 witness: the first three requests get cmdIds "1", "2", "3" and
the counters strictly increase. -/
theorem cmdId_strictly_increasing_witness :
    ((0 : Nat) < 3 ∧ (3 : Nat) < 2 ^ 32) ∧
    issuedCmdId 1 = some "1" ∧ issuedCmdId 2 = some "2" ∧ issuedCmdId 3 = some "3" ∧
    (1 + ((2 : Nat) - 1)) % 2 ^ 32 < (1 + ((3 : Nat) - 1)) % 2 ^ 32 := by
  refine ⟨⟨by norm_num, by norm_num⟩, ?_, ?_, ?_, ?_⟩
  · exact (cmdId_strictly_increasing 1 (by norm_num) (by norm_num)).1
  · exact (cmdId_strictly_increasing 2 (by norm_num) (by norm_num)).1
  · exact (cmdId_strictly_increasing 3 (by norm_num) (by norm_num)).1
  · exact (cmdId_strictly_increasing 3 (by norm_num) (by norm_num)).2 2 (by norm_num) (by norm_num)

/-- C4 counterexample: once a payload is cached for a topic, two further
consecutive publishes of that byte-identical payload produce zero broker
publishes, not exactly one. -/
theorem dedup_pair_not_exactly_one :
    (runPublishes (PublishViaMQTT [] "a" [0]).1 [("a", [0]), ("a", [0])]).2 = [] ∧
    (PublishViaMQTT [] "a" [0]).2.length = 1 := by
  refine ⟨by decide, by decide⟩

/-- C4 (amended): for every cache state and topic, a publish whose
payload is byte-identical to the cached payload performs no broker
publish; every performed publish goes to the requested topic with the
requested payload at QoS 1 with the retained flag; after any call the
cache holds the payload of the last publish routed to the topic; and two
consecutive publishes of byte-identical payloads perform at most one
broker publish, exactly one when the cache did not already hold that
payload for the topic. -/
theorem dedup_publish_cache (cache : List (String × List Nat)) (t : String)
    (b : List Nat) :
    (lookupA cache t = some b → PublishViaMQTT cache t b = (cache, [])) ∧
    (∀ p ∈ (PublishViaMQTT cache t b).2,
      p.topic = t ∧ p.qos = 1 ∧ p.retained = true ∧ p.payload = b) ∧
    lookupA (PublishViaMQTT cache t b).1 t = some b ∧
    ((runPublishes cache [(t, b), (t, b)]).2.length ≤ 1 ∧
      (lookupA cache t ≠ some b → (runPublishes cache [(t, b), (t, b)]).2.length = 1)) := by
  have hsnd : ∀ (c : List (String × List Nat)),
      lookupA c t = some b → PublishViaMQTT c t b = (c, []) := by
    intro c hc
    simp [PublishViaMQTT, hc]
  have hcache : lookupA (PublishViaMQTT cache t b).1 t = some b := by
    unfold PublishViaMQTT
    cases hl : lookupA cache t with
    | none => simp [lookupA_insertA]
    | some last =>
      by_cases hb : b = last
      · subst hb; simp [hl]
      · simp [hb, lookupA_insertA]
  refine ⟨hsnd cache, ?_, hcache, ?_, ?_⟩
  · intro p hp
    unfold PublishViaMQTT at hp
    cases hl : lookupA cache t with
    | none =>
      rw [hl] at hp
      simp at hp
      subst hp; exact ⟨rfl, rfl, rfl, rfl⟩
    | some last =>
      rw [hl] at hp
      by_cases hb : b = last
      · simp [hb] at hp
      · simp [hb] at hp
        subst hp; exact ⟨rfl, rfl, rfl, rfl⟩
  · show (runPublishes cache [(t, b), (t, b)]).2.length ≤ 1
    simp only [runPublishes]
    rw [hsnd (PublishViaMQTT cache t b).1 hcache]
    unfold PublishViaMQTT
    cases hl : lookupA cache t with
    | none => simp
    | some last =>
      by_cases hb : b = last
      · simp [hb]
      · simp [hb]
  · intro hne
    simp only [runPublishes]
    rw [hsnd (PublishViaMQTT cache t b).1 hcache]
    unfold PublishViaMQTT
    cases hl : lookupA cache t with
    | none => simp
    | some last =>
      by_cases hb : b = last
      · exact absurd (hb ▸ hl) hne
      · simp [hb]

/-- C4 witness: from an empty cache, publishing the same payload to the
same topic twice performs exactly one QoS-1 retained broker publish and
leaves the payload cached. -/
theorem dedup_publish_cache_witness :
    (lookupA ([] : List (String × List Nat)) "t" ≠ some [1]) ∧
    (runPublishes [] [("t", [1]), ("t", [1])]).2.length = 1 ∧
    lookupA (PublishViaMQTT [] "t" [1]).1 "t" = some [1] := by
  have h := dedup_publish_cache [] "t" [1]
  exact ⟨by decide, h.2.2.2.2 (by decide), h.2.2.1⟩

/-- C7: evaluating RemoveStaleTopics at a failing input.  The cleanup
builds prefixes under v1/events, but the event router caches topics of
the form base/player/id/type, so the cached topic of a vanished player
is neither cleared from the cache nor republished; moreover on the
topics its prefixes do match, the empty payload is published with the
retained flag false. -/
theorem removeStaleTopics_misses_cached_topics :
    RemoveStaleTopics "base" ["base/player/P2/extendedPlaybackStatus"] ["P2"] [] =
      (["base/player/P2/extendedPlaybackStatus"], []) ∧
    RemoveStaleTopics "base" ["base/v1/events/player/P2/x"] ["P2"] [] =
      ([], [⟨"base/v1/events/player/P2/x", 1, false, []⟩]) := by
  refine ⟨by decide, by decide⟩

/-- C8: when an event of type extendedPlaybackStatus is simplified, the
type is renamed to extendedPlaybackStatusSimple and the body becomes the
object with the playbackState (buffering folded to playing), artist,
album, track and service from the upstream payload and the imageUrl
URL-decoded twice. -/
theorem simplify_extendedPlaybackStatus (eventType : String)
    (m : ExtendedPlaybackStatus) (hty : eventType = "extendedPlaybackStatus") :
    simplifiedTypeName eventType = "extendedPlaybackStatusSimple" ∧
    simplifyPlaybackExtended m =
      { playbackState :=
          if m.playbackState = "PLAYBACK_STATE_BUFFERING" then "PLAYBACK_STATE_PLAYING"
          else m.playbackState
        artist := m.track.artistName
        album := m.track.albumName
        track := m.track.name
        service := m.track.serviceName
        imageUrl := goQueryUnescape (goQueryUnescape m.track.imageUrl) } := by
  subst hty
  exact ⟨by decide, rfl⟩

/-- C8 witness: the single-group simplified playback scenario; the
double-encoded image url decodes to http so-and-so and buffering is
reported as playing. -/
theorem simplify_extendedPlaybackStatus_witness :
    (("extendedPlaybackStatus" : String) = "extendedPlaybackStatus") ∧
    simplifiedTypeName "extendedPlaybackStatus" = "extendedPlaybackStatusSimple" ∧
    simplifyPlaybackExtended
        ⟨"PLAYBACK_STATE_BUFFERING", ⟨"", "T", "http%3A%2F%2Fh%2Fi", "B", "A", "S"⟩⟩ =
      ⟨"PLAYBACK_STATE_PLAYING", "A", "B", "T", "S", "http://h/i"⟩ := by
  have h := simplify_extendedPlaybackStatus "extendedPlaybackStatus"
    ⟨"PLAYBACK_STATE_BUFFERING", ⟨"", "T", "http%3A%2F%2Fh%2Fi", "B", "A", "S"⟩⟩ rfl
  refine ⟨rfl, h.1, ?_⟩
  rw [h.2]
  decide

/-! Support for the equivalence-check claim. -/

theorem mem_rev_of_subset_nodup_length_eq {α : Type} [DecidableEq α]
    (l₁ l₂ : List α) (hsub : ∀ x ∈ l₁, x ∈ l₂) (hn : l₁.Nodup)
    (hlen : l₁.length = l₂.length) : ∀ x ∈ l₂, x ∈ l₁ := by
  have hfin : l₁.toFinset = l₂.toFinset := by
    apply Finset.eq_of_subset_of_card_le
    · intro x hx
      exact List.mem_toFinset.mpr (hsub x (List.mem_toFinset.mp hx))
    · calc l₂.toFinset.card ≤ l₂.length := l₂.toFinset_card_le
        _ = l₁.length := hlen.symm
        _ = l₁.toFinset.card := (List.toFinset_card_of_nodup hn).symm
  intro x hx
  exact List.mem_toFinset.mp (hfin ▸ List.mem_toFinset.mpr hx)

theorem length_eq_of_nodup_set_eq {α : Type} [DecidableEq α]
    (l₁ l₂ : List α) (h₁ : l₁.Nodup) (h₂ : l₂.Nodup)
    (h : ∀ x, x ∈ l₁ ↔ x ∈ l₂) : l₁.length = l₂.length := by
  have hfin : l₁.toFinset = l₂.toFinset := by
    ext x
    simp only [List.mem_toFinset]
    exact h x
  calc l₁.length = l₁.toFinset.card := (List.toFinset_card_of_nodup h₁).symm
    _ = l₂.toFinset.card := by rw [hfin]
    _ = l₂.length := List.toFinset_card_of_nodup h₂

theorem keysA_length {α : Type} (l : List (String × α)) :
    (keysA l).length = l.length := by
  simp [keysA]

theorem mem_keysA_iff {α : Type} (l : List (String × α)) (k : String) :
    k ∈ keysA l ↔ ∃ e ∈ l, e.1 = k := by
  simp [keysA, List.mem_map]

theorem closeEnough_iff (a b : List (String × GroupM)) :
    groupsAreCloseEnoughForMe a b = true ↔
      a.length = b.length ∧
        ∀ e ∈ a, ∃ g', lookupA b e.1 = some g' ∧
          e.2.players.length = g'.players.length ∧
          ∀ p ∈ e.2.players, (lookupA g'.players p.1).isSome = true := by
  simp only [groupsAreCloseEnoughForMe, Bool.and_eq_true, decide_eq_true_eq,
    List.all_eq_true]
  constructor
  · rintro ⟨hlen, hall⟩
    refine ⟨hlen, ?_⟩
    intro e he
    have h := hall e he
    cases hl : lookupA b e.1 with
    | none => rw [hl] at h; simp at h
    | some g' =>
      rw [hl] at h
      simp only [Bool.and_eq_true, decide_eq_true_eq, List.all_eq_true] at h
      exact ⟨g', rfl, h.1, h.2⟩
  · rintro ⟨hlen, hall⟩
    refine ⟨hlen, ?_⟩
    intro e he
    obtain ⟨g', hl, h1, h2⟩ := hall e he
    rw [hl]
    simp only [Bool.and_eq_true, decide_eq_true_eq, List.all_eq_true]
    exact ⟨h1, h2⟩

/-- C9: the group-model equivalence check is reflexive (so identical
inputs do not trigger reconnection) and symmetric, and any two models
with the same set of coordinator ids and, per coordinator, the same set
of member player ids are judged equivalent regardless of the other
player fields.  The Nodup hypotheses record that Go map keys are
distinct. -/
theorem closeEnough_equivalence :
    (∀ a : List (String × GroupM), (keysA a).Nodup →
        groupsAreCloseEnoughForMe a a = true ∧ triggersReconnect a a = false) ∧
    (∀ a b : List (String × GroupM), (keysA a).Nodup → (keysA b).Nodup →
        (∀ e ∈ a, (keysA e.2.players).Nodup) →
        groupsAreCloseEnoughForMe a b = true →
        groupsAreCloseEnoughForMe b a = true) ∧
    (∀ a b : List (String × GroupM), (keysA a).Nodup → (keysA b).Nodup →
        (∀ e ∈ a, (keysA e.2.players).Nodup) →
        (∀ e ∈ b, (keysA e.2.players).Nodup) →
        (∀ k, k ∈ keysA a ↔ k ∈ keysA b) →
        (∀ e ∈ a, ∀ e' ∈ b, e.1 = e'.1 →
          ∀ p, p ∈ keysA e.2.players ↔ p ∈ keysA e'.2.players) →
        groupsAreCloseEnoughForMe a b = true) := by
  have hrefl : ∀ a : List (String × GroupM), (keysA a).Nodup →
      groupsAreCloseEnoughForMe a a = true := by
    intro a hn
    rw [closeEnough_iff]
    refine ⟨rfl, ?_⟩
    intro e he
    refine ⟨e.2, lookupA_eq_some_of_mem_nodup a e.1 e.2 hn he, rfl, ?_⟩
    intro p hp
    rw [lookupA_isSome_iff_mem_keysA]
    exact List.mem_map.mpr ⟨p, hp, rfl⟩
  refine ⟨fun a hn => ⟨hrefl a hn, by simp [triggersReconnect, hrefl a hn]⟩, ?_, ?_⟩
  · -- symmetry
    intro a b hna hnb hma hab
    rw [closeEnough_iff] at hab
    obtain ⟨hlen, hall⟩ := hab
    have hkeysub : ∀ k ∈ keysA a, k ∈ keysA b := by
      intro k hk
      obtain ⟨e, he, rfl⟩ := (mem_keysA_iff a k).mp hk
      obtain ⟨g', hl, _, _⟩ := hall e he
      rw [← lookupA_isSome_iff_mem_keysA, hl]
      rfl
    have hkeylen : (keysA a).length = (keysA b).length := by
      rw [keysA_length, keysA_length, hlen]
    have hkeyrev := mem_rev_of_subset_nodup_length_eq (keysA a) (keysA b)
      hkeysub hna hkeylen
    rw [closeEnough_iff]
    refine ⟨hlen.symm, ?_⟩
    intro e' he'
    have hk : e'.1 ∈ keysA a := hkeyrev e'.1 (List.mem_map.mpr ⟨e', he', rfl⟩)
    obtain ⟨e, he, hke⟩ := (mem_keysA_iff a e'.1).mp hk
    have hla : lookupA a e'.1 = some e.2 := by
      rw [← hke]
      exact lookupA_eq_some_of_mem_nodup a e.1 e.2 hna he
    obtain ⟨g', hl, hplen, hpsub⟩ := hall e he
    have hlb : lookupA b e.1 = some e'.2 := by
      rw [hke]
      exact lookupA_eq_some_of_mem_nodup b e'.1 e'.2 hnb he'
    have hg' : g' = e'.2 := by
      rw [hl] at hlb
      exact (Option.some.injEq _ _ ▸ hlb)
    subst hg'
    refine ⟨e.2, hla, hplen.symm, ?_⟩
    have hmsub : ∀ k ∈ keysA e.2.players, k ∈ keysA e'.2.players := by
      intro k hkm
      obtain ⟨p, hp, rfl⟩ := (mem_keysA_iff e.2.players k).mp hkm
      rw [← lookupA_isSome_iff_mem_keysA]
      exact hpsub p hp
    have hmlen : (keysA e.2.players).length = (keysA e'.2.players).length := by
      rw [keysA_length, keysA_length, hplen]
    have hmrev := mem_rev_of_subset_nodup_length_eq (keysA e.2.players)
      (keysA e'.2.players) hmsub (hma e he) hmlen
    intro p hp
    rw [lookupA_isSome_iff_mem_keysA]
    exact hmrev p.1 (List.mem_map.mpr ⟨p, hp, rfl⟩)
  · -- same key structure is judged equivalent
    intro a b hna hnb hmba hmbb hkeys hmembers
    rw [closeEnough_iff]
    have hlen : a.length = b.length := by
      rw [← keysA_length a, ← keysA_length b]
      exact length_eq_of_nodup_set_eq (keysA a) (keysA b) hna hnb hkeys
    refine ⟨hlen, ?_⟩
    intro e he
    have hk : e.1 ∈ keysA b :=
      (hkeys e.1).mp (List.mem_map.mpr ⟨e, he, rfl⟩)
    obtain ⟨e', he', hke⟩ := (mem_keysA_iff b e.1).mp hk
    have hlb : lookupA b e.1 = some e'.2 := by
      rw [← hke]
      exact lookupA_eq_some_of_mem_nodup b e'.1 e'.2 hnb he'
    have hmem := hmembers e he e' he' hke.symm
    refine ⟨e'.2, hlb, ?_, ?_⟩
    · rw [← keysA_length e.2.players, ← keysA_length e'.2.players]
      exact length_eq_of_nodup_set_eq _ _ (hmba e he) (hmbb e' he') hmem
    · intro p hp
      rw [lookupA_isSome_iff_mem_keysA]
      exact (hmem p.1).mp (List.mem_map.mpr ⟨p, hp, rfl⟩)

/-- C9 witness: a concrete one-group model is equivalent to itself and
does not trigger a reconnect, the check is symmetric on a concrete pair,
and a model differing only in player names is judged equivalent. -/
theorem closeEnough_equivalence_witness :
    (groupsAreCloseEnoughForMe
        [("P1", ⟨⟨"P1", "Den", "G1", "P1", "HH"⟩, [("P1", ⟨"P1", "Den", "G1", "P1", "HH"⟩)]⟩)]
        [("P1", ⟨⟨"P1", "Den", "G1", "P1", "HH"⟩, [("P1", ⟨"P1", "Den", "G1", "P1", "HH"⟩)]⟩)] = true ∧
      triggersReconnect
        [("P1", ⟨⟨"P1", "Den", "G1", "P1", "HH"⟩, [("P1", ⟨"P1", "Den", "G1", "P1", "HH"⟩)]⟩)]
        [("P1", ⟨⟨"P1", "Den", "G1", "P1", "HH"⟩, [("P1", ⟨"P1", "Den", "G1", "P1", "HH"⟩)]⟩)] = false) ∧
    groupsAreCloseEnoughForMe
        [("P1", ⟨⟨"P1", "Den", "G1", "P1", "HH"⟩, [("P1", ⟨"P1", "Den", "G1", "P1", "HH"⟩)]⟩)]
        [("P1", ⟨⟨"P1", "Kitchen", "G9", "P1", "HH"⟩, [("P1", ⟨"P1", "Kitchen", "G9", "P1", "HH"⟩)]⟩)] = true ∧
    groupsAreCloseEnoughForMe
        [("P1", ⟨⟨"P1", "Kitchen", "G9", "P1", "HH"⟩, [("P1", ⟨"P1", "Kitchen", "G9", "P1", "HH"⟩)]⟩)]
        [("P1", ⟨⟨"P1", "Den", "G1", "P1", "HH"⟩, [("P1", ⟨"P1", "Den", "G1", "P1", "HH"⟩)]⟩)] = true := by
  refine ⟨?_, ?_, ?_⟩
  · exact closeEnough_equivalence.1
      [("P1", ⟨⟨"P1", "Den", "G1", "P1", "HH"⟩, [("P1", ⟨"P1", "Den", "G1", "P1", "HH"⟩)]⟩)]
      (by decide)
  case refine_3 =>
    exact closeEnough_equivalence.2.1
      [("P1", ⟨⟨"P1", "Den", "G1", "P1", "HH"⟩, [("P1", ⟨"P1", "Den", "G1", "P1", "HH"⟩)]⟩)]
      [("P1", ⟨⟨"P1", "Kitchen", "G9", "P1", "HH"⟩, [("P1", ⟨"P1", "Kitchen", "G9", "P1", "HH"⟩)]⟩)]
      (by decide) (by decide)
      (by intro e he; rw [List.mem_singleton] at he; subst he; decide)
      (by decide)
  · exact closeEnough_equivalence.2.2
      [("P1", ⟨⟨"P1", "Den", "G1", "P1", "HH"⟩, [("P1", ⟨"P1", "Den", "G1", "P1", "HH"⟩)]⟩)]
      [("P1", ⟨⟨"P1", "Kitchen", "G9", "P1", "HH"⟩, [("P1", ⟨"P1", "Kitchen", "G9", "P1", "HH"⟩)]⟩)]
      (by decide) (by decide)
      (by intro e he; rw [List.mem_singleton] at he; subst he; decide)
      (by intro e he; rw [List.mem_singleton] at he; subst he; decide)
      (fun _ => Iff.rfl)
      (by
        intro e he e' he' hke p
        rw [List.mem_singleton] at he he'
        subst he; subst he'
        exact Iff.rfl)

/-! Support for the group-model construction claim. -/

theorem mem_insertA {α : Type} {l : List (String × α)} {k : String} {v : α}
    {e : String × α} : e ∈ insertA l k v → e = (k, v) ∨ e ∈ l := by
  induction l with
  | nil =>
    intro h
    simp only [insertA] at h
    exact Or.inl (List.mem_singleton.mp h)
  | cons x rest ih =>
    intro h
    obtain ⟨k₀, v₀⟩ := x
    by_cases h₀ : k₀ = k
    · subst h₀
      simp only [insertA, if_pos rfl] at h
      rcases List.mem_cons.mp h with h' | h'
      · exact Or.inl h'
      · exact Or.inr (List.mem_cons_of_mem _ h')
    · simp only [insertA, if_neg h₀] at h
      rcases List.mem_cons.mp h with h' | h'
      · exact Or.inr (h' ▸ List.mem_cons_self _ _)
      · rcases ih h' with h'' | h''
        · exact Or.inl h''
        · exact Or.inr (List.mem_cons_of_mem _ h'')

theorem eq_of_same_key_nodup {α : Type} {l : List (String × α)}
    (hn : (keysA l).Nodup) {e₁ e₂ : String × α} (h₁ : e₁ ∈ l) (h₂ : e₂ ∈ l)
    (hk : e₁.1 = e₂.1) : e₁ = e₂ := by
  have l₁ : lookupA l e₁.1 = some e₁.2 :=
    lookupA_eq_some_of_mem_nodup l e₁.1 e₁.2 hn h₁
  have l₂ : lookupA l e₁.1 = some e₂.2 := by
    rw [hk]
    exact lookupA_eq_some_of_mem_nodup l e₂.1 e₂.2 hn h₂
  have : e₁.2 = e₂.2 := by
    rw [l₁] at l₂
    exact Option.some.injEq _ _ ▸ l₂
  exact Prod.ext hk this

theorem mem_insertKey (l : List String) (k x : String) :
    x ∈ insertKey l k ↔ x ∈ l ∨ x = k := by
  by_cases h : k ∈ l
  · simp only [insertKey, if_pos h]
    constructor
    · exact Or.inl
    · rintro (h' | rfl)
      · exact h'
      · exact h
  · simp [insertKey, if_neg h]

theorem nodup_insertKey (l : List String) (k : String) (h : l.Nodup) :
    (insertKey l k).Nodup := by
  by_cases hk : k ∈ l
  · simpa [insertKey, if_pos hk] using h
  · simp only [insertKey, if_neg hk]
    refine List.Nodup.append h (List.nodup_singleton k) ?_
    intro x hx hxk
    rw [List.mem_singleton] at hxk
    exact hk (hxk ▸ hx)

theorem keysA_setCoordinatorInStore (s : List (String × PlayerM)) (id gid cid : String) :
    keysA (setCoordinatorInStore s id gid cid) = keysA s := by
  simp [setCoordinatorInStore, keysA, List.map_map, Function.comp]

theorem lookupA_setCoordinatorInStore (s : List (String × PlayerM)) (id gid cid k : String) :
    lookupA (setCoordinatorInStore s id gid cid) k =
      if k = id then (lookupA s k).map (updFields gid cid) else lookupA s k := by
  induction s with
  | nil => simp [setCoordinatorInStore, lookupA]
  | cons e rest ih =>
    obtain ⟨k₀, p₀⟩ := e
    have hcons : setCoordinatorInStore ((k₀, p₀) :: rest) id gid cid =
        (k₀, if k₀ = id then updFields gid cid p₀ else p₀) ::
          setCoordinatorInStore rest id gid cid := rfl
    rw [hcons]
    by_cases h₁ : k₀ = k
    · subst h₁
      by_cases h₀ : k₀ = id
      · subst h₀
        simp [lookupA]
      · simp [lookupA, h₀]
    · have h₁' : ¬ k₀ = k := h₁
      simp only [lookupA, if_neg h₁']
      rw [ih]

theorem updFields_idem (gid cid : String) (p : PlayerM) :
    updFields gid cid (updFields gid cid p) = updFields gid cid p := rfl

theorem updFields_playerId (gid cid : String) (p : PlayerM) :
    (updFields gid cid p).playerId = p.playerId := rfl

theorem addMemberStep_foldl (g : SGroup) (pids : List String) :
    ∀ (s : List (String × PlayerM)) (ms : List String),
      keysA (pids.foldl (addMemberStep g) (s, ms)).1 = keysA s ∧
      (∀ x, x ∈ (pids.foldl (addMemberStep g) (s, ms)).2 ↔
        x ∈ ms ∨ (x ∈ pids ∧ x ∈ keysA s)) ∧
      (ms.Nodup → (pids.foldl (addMemberStep g) (s, ms)).2.Nodup) ∧
      (∀ x, lookupA (pids.foldl (addMemberStep g) (s, ms)).1 x =
        if x ∈ pids ∧ x ∈ keysA s
        then (lookupA s x).map (updFields g.id g.coordinatorId)
        else lookupA s x) := by
  induction pids with
  | nil =>
    intro s ms
    refine ⟨rfl, ?_, fun h => h, ?_⟩
    · intro x; simp
    · intro x; simp
  | cons pid rest ih =>
    intro s ms
    simp only [List.foldl_cons]
    cases hl : lookupA s pid with
    | none =>
      have hstep : addMemberStep g (s, ms) pid = (s, ms) := by
        simp [addMemberStep, hl]
      rw [hstep]
      have hpidK : pid ∉ keysA s := by
        intro hmem
        rw [← lookupA_isSome_iff_mem_keysA, hl] at hmem
        simp at hmem
      obtain ⟨i1, i2, i3, i4⟩ := ih s ms
      refine ⟨i1, ?_, i3, ?_⟩
      · intro x
        rw [i2 x]
        constructor
        · rintro (h | ⟨h1, h2⟩)
          · exact Or.inl h
          · exact Or.inr ⟨List.mem_cons_of_mem _ h1, h2⟩
        · rintro (h | ⟨h1, h2⟩)
          · exact Or.inl h
          · rcases List.mem_cons.mp h1 with rfl | h1'
            · exact absurd h2 hpidK
            · exact Or.inr ⟨h1', h2⟩
      · intro x
        rw [i4 x]
        by_cases hx : x ∈ rest ∧ x ∈ keysA s
        · rw [if_pos hx, if_pos ⟨List.mem_cons_of_mem _ hx.1, hx.2⟩]
        · rw [if_neg hx, if_neg ?_]
          rintro ⟨h1, h2⟩
          rcases List.mem_cons.mp h1 with rfl | h1'
          · exact hpidK h2
          · exact hx ⟨h1', h2⟩
    | some p =>
      have hpidK : pid ∈ keysA s := by
        rw [← lookupA_isSome_iff_mem_keysA, hl]
        rfl
      have hstep : addMemberStep g (s, ms) pid =
          (setCoordinatorInStore s pid g.id g.coordinatorId, insertKey ms pid) := by
        simp [addMemberStep, hl]
      rw [hstep]
      obtain ⟨i1, i2, i3, i4⟩ :=
        ih (setCoordinatorInStore s pid g.id g.coordinatorId) (insertKey ms pid)
      have hkeys : keysA (setCoordinatorInStore s pid g.id g.coordinatorId) = keysA s :=
        keysA_setCoordinatorInStore s pid g.id g.coordinatorId
      rw [hkeys] at i1
      refine ⟨i1, ?_, ?_, ?_⟩
      · intro x
        rw [i2 x, mem_insertKey, hkeys]
        constructor
        · rintro ((h | rfl) | ⟨h1, h2⟩)
          · exact Or.inl h
          · exact Or.inr ⟨List.mem_cons_self _ _, hpidK⟩
          · exact Or.inr ⟨List.mem_cons_of_mem _ h1, h2⟩
        · rintro (h | ⟨h1, h2⟩)
          · exact Or.inl (Or.inl h)
          · rcases List.mem_cons.mp h1 with rfl | h1'
            · exact Or.inl (Or.inr rfl)
            · exact Or.inr ⟨h1', h2⟩
      · intro hnod
        exact i3 (nodup_insertKey ms pid hnod)
      · intro x
        rw [i4 x, hkeys, lookupA_setCoordinatorInStore]
        by_cases hxp : x = pid
        · subst hxp
          rw [if_pos rfl]
          by_cases hxr : x ∈ rest ∧ x ∈ keysA s
          · rw [if_pos hxr, if_pos ⟨List.mem_cons_self _ _, hpidK⟩, Option.map_map]
            congr 1
          · rw [if_neg hxr, if_pos ⟨List.mem_cons_self _ _, hpidK⟩]
        · rw [if_neg hxp]
          by_cases hxr : x ∈ rest ∧ x ∈ keysA s
          · rw [if_pos hxr, if_pos ⟨List.mem_cons_of_mem _ hxr.1, hxr.2⟩]
          · rw [if_neg hxr, if_neg ?_]
            rintro ⟨h1, h2⟩
            rcases List.mem_cons.mp h1 with rfl | h1'
            · exact hxp rfl
            · exact hxr ⟨h1', h2⟩

theorem processGroup_spec (s : List (String × PlayerM))
    (built : List (String × GroupRef)) (g : SGroup)
    (hc : g.coordinatorId ∈ keysA s) :
    keysA (processGroup (s, built) g).1 = keysA s ∧
    (∀ x, lookupA (processGroup (s, built) g).1 x =
      if x = g.coordinatorId ∨ (x ∈ g.playerIds ∧ x ∈ keysA s)
      then (lookupA s x).map (updFields g.id g.coordinatorId)
      else lookupA s x) ∧
    ∃ members : List String,
      (processGroup (s, built) g).2 =
        insertA built g.coordinatorId ⟨g.coordinatorId, members⟩ ∧
      members.Nodup ∧
      (∀ m, m ∈ members ↔ m ∈ g.playerIds ∧ m ∈ keysA s) := by
  obtain ⟨p, hp⟩ : ∃ p, lookupA s g.coordinatorId = some p :=
    Option.isSome_iff_exists.mp ((lookupA_isSome_iff_mem_keysA s g.coordinatorId).mpr hc)
  have hred : processGroup (s, built) g =
      ((addMembers g (setCoordinatorInStore s g.coordinatorId g.id g.coordinatorId)).1,
       insertA built g.coordinatorId
         ⟨g.coordinatorId,
          (addMembers g (setCoordinatorInStore s g.coordinatorId g.id g.coordinatorId)).2⟩) := by
    simp [processGroup, hp]
  set s₁ := setCoordinatorInStore s g.coordinatorId g.id g.coordinatorId with hs₁
  have hkeys₁ : keysA s₁ = keysA s :=
    keysA_setCoordinatorInStore s g.coordinatorId g.id g.coordinatorId
  obtain ⟨a1, a2, a3, a4⟩ := addMemberStep_foldl g g.playerIds s₁ []
  rw [hred]
  refine ⟨by rw [show (addMembers g s₁) = g.playerIds.foldl (addMemberStep g) (s₁, []) from rfl, a1, hkeys₁], ?_, ?_⟩
  · intro x
    rw [show (addMembers g s₁) = g.playerIds.foldl (addMemberStep g) (s₁, []) from rfl, a4 x, hkeys₁]
    rw [hs₁, lookupA_setCoordinatorInStore]
    by_cases hxc : x = g.coordinatorId
    · rw [if_pos hxc, if_pos (Or.inl hxc)]
      by_cases hxr : x ∈ g.playerIds ∧ x ∈ keysA s
      · rw [if_pos hxr, Option.map_map]
        congr 1
      · rw [if_neg hxr]
    · rw [if_neg hxc]
      by_cases hxr : x ∈ g.playerIds ∧ x ∈ keysA s
      · rw [if_pos hxr, if_pos (Or.inr hxr)]
      · rw [if_neg hxr, if_neg ?_]
        rintro (h | h)
        · exact hxc h
        · exact hxr h
  · refine ⟨(addMembers g s₁).2, rfl, ?_, ?_⟩
    · exact a3 List.nodup_nil
    · intro m
      rw [show (addMembers g s₁) = g.playerIds.foldl (addMemberStep g) (s₁, []) from rfl, a2 m, hkeys₁]
      simp

theorem processGroups_foldl (gs : List SGroup) :
    ∀ (s : List (String × PlayerM)) (built : List (String × GroupRef)),
      gs.Pairwise (fun g g' => ∀ x, x ∈ g.playerIds → x ∉ g'.playerIds) →
      (∀ g ∈ gs, g.coordinatorId ∈ g.playerIds) →
      (∀ e ∈ built, ∀ g ∈ gs, e.1 ≠ g.coordinatorId) →
      keysA (gs.foldl processGroup (s, built)).1 = keysA s ∧
      (∀ x, (∀ g ∈ gs, x ∉ g.playerIds) →
        lookupA (gs.foldl processGroup (s, built)).1 x = lookupA s x) ∧
      ((keysA built).Nodup → (keysA (gs.foldl processGroup (s, built)).2).Nodup) ∧
      (∀ e ∈ (gs.foldl processGroup (s, built)).2, e ∈ built ∨
        ∃ g ∈ gs,
          e.1 = g.coordinatorId ∧ g.coordinatorId ∈ keysA s ∧
          e.2.coordinatorId = g.coordinatorId ∧ e.2.memberIds.Nodup ∧
          (∀ m, m ∈ e.2.memberIds ↔ m ∈ g.playerIds ∧ m ∈ keysA s) ∧
          (∀ m ∈ e.2.memberIds,
            lookupA (gs.foldl processGroup (s, built)).1 m =
              (lookupA s m).map (updFields g.id g.coordinatorId))) := by
  induction gs with
  | nil =>
    intro s built _ _ _
    exact ⟨rfl, fun x _ => rfl, fun h => h, fun e he => Or.inl he⟩
  | cons g rest ih =>
    intro s built hpw h1 hbuilt
    obtain ⟨hg_rest, hpw_rest⟩ := List.pairwise_cons.mp hpw
    have h1g : g.coordinatorId ∈ g.playerIds := h1 g (List.mem_cons_self _ _)
    have h1rest : ∀ g' ∈ rest, g'.coordinatorId ∈ g'.playerIds :=
      fun g' hg' => h1 g' (List.mem_cons_of_mem _ hg')
    simp only [List.foldl_cons]
    by_cases hc : g.coordinatorId ∈ keysA s
    · obtain ⟨p1, p2, members, hmeq, hmnodup, hmiff⟩ := processGroup_spec s built g hc
      have hbuilt' : ∀ e ∈ (processGroup (s, built) g).2, ∀ g' ∈ rest,
          e.1 ≠ g'.coordinatorId := by
        intro e he g' hg'
        rw [hmeq] at he
        rcases mem_insertA he with rfl | hemem
        · intro hcontra
          have hcid : g.coordinatorId = g'.coordinatorId := hcontra
          have hmem := h1rest g' hg'
          rw [← hcid] at hmem
          exact hg_rest g' hg' g.coordinatorId h1g hmem
        · exact hbuilt e hemem g' (List.mem_cons_of_mem _ hg')
      have hre : processGroup (s, built) g =
          ((processGroup (s, built) g).1, (processGroup (s, built) g).2) := rfl
      obtain ⟨j1, j2, j3, j4⟩ :=
        ih (processGroup (s, built) g).1 (processGroup (s, built) g).2
          hpw_rest h1rest hbuilt'
      rw [← hre] at j1 j2 j3 j4
      refine ⟨by rw [j1, p1], ?_, ?_, ?_⟩
      · intro x hx
        have hxg : x ∉ g.playerIds := hx g (List.mem_cons_self _ _)
        have hxrest : ∀ g' ∈ rest, x ∉ g'.playerIds :=
          fun g' hg' => hx g' (List.mem_cons_of_mem _ hg')
        rw [j2 x hxrest, p2 x, if_neg ?_]
        rintro (rfl | ⟨h', _⟩)
        · exact hxg h1g
        · exact hxg h'
      · intro hnod
        refine j3 ?_
        rw [hmeq]
        exact keysA_nodup_insertA built g.coordinatorId _ hnod
      · intro e he
        rcases j4 e he with hin | ⟨g', hg', k1, k2, k3, k4, k5, k6⟩
        · rw [hmeq] at hin
          rcases mem_insertA hin with rfl | hemem
          · refine Or.inr ⟨g, List.mem_cons_self _ _, rfl, hc, rfl, hmnodup, hmiff, ?_⟩
            intro m hm
            have hmg : m ∈ g.playerIds ∧ m ∈ keysA s := (hmiff m).mp hm
            have hmrest : ∀ g' ∈ rest, m ∉ g'.playerIds :=
              fun g' hg' => hg_rest g' hg' m hmg.1
            rw [j2 m hmrest, p2 m, if_pos (Or.inr hmg)]
          · exact Or.inl hemem
        · refine Or.inr ⟨g', List.mem_cons_of_mem _ hg', k1, ?_, k3, k4, ?_, ?_⟩
          · rw [p1] at k2; exact k2
          · intro m
            rw [k5 m, p1]
          · intro m hm
            have hmg' : m ∈ g'.playerIds := ((k5 m).mp hm).1
            have hmng : m ∉ g.playerIds := fun hctr => hg_rest g' hg' m hctr hmg'
            have hmnc : m ≠ g.coordinatorId := fun hctr => hmng (hctr ▸ h1g)
            rw [k6 m hm, p2 m, if_neg ?_]
            rintro (h' | ⟨h', _⟩)
            · exact hmnc h'
            · exact hmng h'
    · have hskip : processGroup (s, built) g = (s, built) := by
        have hnone : lookupA s g.coordinatorId = none :=
          lookupA_eq_none_of_not_mem_keysA s _ hc
        simp [processGroup, hnone]
      rw [hskip]
      have hbuilt' : ∀ e ∈ built, ∀ g' ∈ rest, e.1 ≠ g'.coordinatorId :=
        fun e he g' hg' => hbuilt e he g' (List.mem_cons_of_mem _ hg')
      obtain ⟨j1, j2, j3, j4⟩ := ih s built hpw_rest h1rest hbuilt'
      refine ⟨j1, ?_, j3, ?_⟩
      · intro x hx
        exact j2 x (fun g' hg' => hx g' (List.mem_cons_of_mem _ hg'))
      · intro e he
        rcases j4 e he with hin | ⟨g', hg', props⟩
        · exact Or.inl hin
        · exact Or.inr ⟨g', List.mem_cons_of_mem _ hg', props⟩

theorem addPlayerStep_foldl_playerId (hhid : String) (ps : List SPlayer) :
    ∀ (s : List (String × PlayerM)),
      (∀ k p, lookupA s k = some p → p.playerId = k) →
      ∀ k p, lookupA (ps.foldl (addPlayerStep hhid) s) k = some p → p.playerId = k := by
  induction ps with
  | nil => intro s hs; exact hs
  | cons q rest ih =>
    intro s hs
    simp only [List.foldl_cons]
    refine ih (addPlayerStep hhid s q) ?_
    intro k p hk
    rw [addPlayerStep, lookupA_insertA] at hk
    by_cases hq : q.id = k
    · rw [if_pos hq] at hk
      have : p = NewInternalPlayerFromSonosPlayer q hhid "" := by
        injection hk with h'
        exact h'.symm
      rw [this]
      exact hq
    · rw [if_neg hq] at hk
      exact hs k p hk

theorem keysA_resolveGroup (store : List (String × PlayerM)) (gr : GroupRef) :
    keysA (resolveGroup store gr).players = gr.memberIds := by
  simp only [resolveGroup, keysA, List.map_map]
  induction gr.memberIds with
  | nil => rfl
  | cons m rest ih => simpa using ih

/-- C6 (amended): for every GroupsResponse in which each group's
playerIds list contains its coordinatorId and the playerIds lists of the
groups are pairwise disjoint, the model built by getGroupMap satisfies
the claimed invariants: a group's coordinator carries the group's key as
its playerId and is contained in the group's own member set; every
member is stored under its own playerId, carries the group's id as its
groupId and the coordinator's playerId as its coordinatorId; and every
player referenced by any group's member set appears in exactly one
group. -/
theorem getGroupMap_invariants (hhid : String) (resp : SGroupsResponse)
    (h1 : ∀ g ∈ resp.groups, g.coordinatorId ∈ g.playerIds)
    (h2 : resp.groups.Pairwise (fun g g' => ∀ x, x ∈ g.playerIds → x ∉ g'.playerIds)) :
    ∀ e ∈ groupModelOf hhid resp,
      (e.2.coordinator.playerId = e.1 ∧ e.1 ∈ keysA e.2.players) ∧
      (∀ p ∈ e.2.players, p.2.playerId = p.1 ∧
        p.2.groupId = e.2.coordinator.groupId ∧
        p.2.coordinatorId = e.2.coordinator.playerId) ∧
      (∀ e' ∈ groupModelOf hhid resp, ∀ x,
        x ∈ keysA e.2.players → x ∈ keysA e'.2.players → e = e') := by
  have hstore : ∀ k p,
      lookupA (resp.players.foldl (addPlayerStep hhid) []) k = some p →
      p.playerId = k :=
    addPlayerStep_foldl_playerId hhid resp.players [] (by intro k p hk; cases hk)
  obtain ⟨j1, j2, j3, j4⟩ :=
    processGroups_foldl resp.groups (resp.players.foldl (addPlayerStep hhid) []) []
      h2 h1 (by intro e he; cases he)
  have hnodupb : (keysA (getGroupMap hhid resp).2).Nodup := j3 List.nodup_nil
  -- Extract, for each entry of the built map, the response group it came from.
  have hent : ∀ ent ∈ (getGroupMap hhid resp).2, ∃ g ∈ resp.groups,
      ent.1 = g.coordinatorId ∧
      g.coordinatorId ∈ keysA (resp.players.foldl (addPlayerStep hhid) []) ∧
      ent.2.coordinatorId = g.coordinatorId ∧ ent.2.memberIds.Nodup ∧
      (∀ m, m ∈ ent.2.memberIds ↔ m ∈ g.playerIds ∧
        m ∈ keysA (resp.players.foldl (addPlayerStep hhid) [])) ∧
      (∀ m ∈ ent.2.memberIds,
        lookupA (getGroupMap hhid resp).1 m =
          (lookupA (resp.players.foldl (addPlayerStep hhid) []) m).map
            (updFields g.id g.coordinatorId)) := by
    intro ent hmem
    rcases j4 ent hmem with h | h
    · cases h
    · exact h
  intro e he
  obtain ⟨ent, hentmem, hee⟩ := List.mem_map.mp he
  obtain ⟨g, hg, k1, k2, k3, k4, k5, k6⟩ := hent ent hentmem
  have hcidmem : g.coordinatorId ∈ ent.2.memberIds :=
    (k5 g.coordinatorId).mpr ⟨h1 g hg, k2⟩
  obtain ⟨p₀, hp₀⟩ : ∃ p₀,
      lookupA (resp.players.foldl (addPlayerStep hhid) []) g.coordinatorId = some p₀ :=
    Option.isSome_iff_exists.mp ((lookupA_isSome_iff_mem_keysA _ _).mpr k2)
  have hp₀id : p₀.playerId = g.coordinatorId := hstore _ _ hp₀
  have hcoordlook : lookupA (getGroupMap hhid resp).1 ent.2.coordinatorId =
      some (updFields g.id g.coordinatorId p₀) := by
    rw [k3, k6 g.coordinatorId hcidmem, hp₀]
    rfl
  have hcoord : (resolveGroup (getGroupMap hhid resp).1 ent.2).coordinator =
      updFields g.id g.coordinatorId p₀ := by
    simp [resolveGroup, hcoordlook]
  have hkeysp : keysA (resolveGroup (getGroupMap hhid resp).1 ent.2).players =
      ent.2.memberIds := keysA_resolveGroup _ _
  subst hee
  refine ⟨⟨?_, ?_⟩, ?_, ?_⟩
  · rw [hcoord, updFields_playerId, hp₀id, k1]
  · rw [hkeysp, k1]
    exact hcidmem
  · intro p hp
    simp only [resolveGroup, List.mem_map] at hp
    obtain ⟨m, hm, hpm⟩ := hp
    obtain ⟨pm, hpm'⟩ : ∃ pm,
        lookupA (resp.players.foldl (addPlayerStep hhid) []) m = some pm :=
      Option.isSome_iff_exists.mp
        ((lookupA_isSome_iff_mem_keysA _ _).mpr ((k5 m).mp hm).2)
    have hlook : lookupA (getGroupMap hhid resp).1 m =
        some (updFields g.id g.coordinatorId pm) := by
      rw [k6 m hm, hpm']
      rfl
    have hpmid : pm.playerId = m := hstore _ _ hpm'
    rw [← hpm]
    refine ⟨?_, ?_, ?_⟩
    · simp [hlook, updFields, hpmid]
    · rw [hcoord]
      simp [hlook, updFields]
    · rw [hcoord, updFields_playerId, hp₀id]
      simp [hlook, updFields]
  · intro e' he' x hx hx'
    obtain ⟨ent', hentmem', hee'⟩ := List.mem_map.mp he'
    obtain ⟨g', hg', k1', _, _, _, k5', _⟩ := hent ent' hentmem'
    rw [hkeysp] at hx
    have hkeysp' : keysA (resolveGroup (getGroupMap hhid resp).1 ent'.2).players =
        ent'.2.memberIds := keysA_resolveGroup _ _
    rw [← hee', hkeysp'] at hx'
    have hxg : x ∈ g.playerIds := ((k5 x).mp hx).1
    have hxg' : x ∈ g'.playerIds := ((k5' x).mp hx').1
    have hgg' : g = g' := by
      by_contra hne
      have hsym : Symmetric (fun g g' : SGroup =>
          ∀ x, x ∈ g.playerIds → x ∉ g'.playerIds) := by
        intro a b hab y hyb hya
        exact hab y hya hyb
      exact (List.Pairwise.forall hsym h2) hg hg' hne x hxg hxg'
    have hkent : ent.1 = ent'.1 := by
      rw [k1, k1', hgg']
    have henteq : ent = ent' := eq_of_same_key_nodup hnodupb hentmem hentmem' hkent
    rw [← hee', ← henteq]

/-- C6 counterexample: a GroupsResponse whose single group omits its
coordinator from playerIds yields a group whose coordinator is not in
its own member set, refuting the claim for arbitrary inputs. -/
theorem getGroupMap_coordinator_not_member :
    ((groupModelOf "HH"
        ⟨[⟨"G1", "g", "P1", ["P2"]⟩], [⟨"P1", "N1", "u1"⟩, ⟨"P2", "N2", "u2"⟩]⟩).all
      (fun e => decide (e.2.coordinator.playerId ∈ keysA e.2.players))) = false := by
  decide

/-- C6 witness: a well-formed two-player response (coordinator listed in
its own playerIds) satisfies every invariant of the amended claim. -/
theorem getGroupMap_invariants_witness :
    ((∀ g ∈ ([⟨"G1", "g", "P1", ["P1", "P2"]⟩] : List SGroup),
        g.coordinatorId ∈ g.playerIds) ∧
      ([⟨"G1", "g", "P1", ["P1", "P2"]⟩] : List SGroup).Pairwise
        (fun g g' => ∀ x, x ∈ g.playerIds → x ∉ g'.playerIds)) ∧
    (∀ e ∈ groupModelOf "HH"
        ⟨[⟨"G1", "g", "P1", ["P1", "P2"]⟩], [⟨"P1", "N1", "u1"⟩, ⟨"P2", "N2", "u2"⟩]⟩,
      (e.2.coordinator.playerId = e.1 ∧ e.1 ∈ keysA e.2.players) ∧
      (∀ p ∈ e.2.players, p.2.playerId = p.1 ∧
        p.2.groupId = e.2.coordinator.groupId ∧
        p.2.coordinatorId = e.2.coordinator.playerId) ∧
      (∀ e' ∈ groupModelOf "HH"
          ⟨[⟨"G1", "g", "P1", ["P1", "P2"]⟩], [⟨"P1", "N1", "u1"⟩, ⟨"P2", "N2", "u2"⟩]⟩,
        ∀ x, x ∈ keysA e.2.players → x ∈ keysA e'.2.players → e = e')) := by
  constructor
  · constructor
    · intro g hg
      rw [List.mem_singleton] at hg
      subst hg
      decide
    · exact List.pairwise_singleton _ _
  · exact getGroupMap_invariants "HH"
      ⟨[⟨"G1", "g", "P1", ["P1", "P2"]⟩], [⟨"P1", "N1", "u1"⟩, ⟨"P2", "N2", "u2"⟩]⟩
      (by intro g hg; rw [List.mem_singleton] at hg; subst hg; decide)
      (List.pairwise_singleton _ _)

end SonosMqtt
